import Mathlib

/-!
Verification of the hybrid adaptive signature engine of this repository
against its natural-language specification.

The definitions below are shallow embeddings of the source:

* `assessSecurityRequirement` embeds the scoring function
  `assessSecurityRequirement` of TECHNICAL_SPECIFICATION.md (section 3.1).
* `dilithiumSign` embeds the rejection-sampling loop of `dilithiumSign`
  (TECHNICAL_SPECIFICATION.md section 2.2).
* `compressPolynomial` / `decompressPolynomial` embed the coefficient
  quantization and bit packing of TECHNICAL_SPECIFICATION.md section 4.1.
* `generateDilithiumKeys`, `signMessage`, `verifySignature`,
  `generateHybridSignature` embed the runnable demo code of
  `src/lib/ethereum-utils.ts`; its `Math.random` stream is made explicit
  as an oracle argument `rand : Nat -> Fin 16` (the sequence of hex digit
  draws), and simulated `setTimeout` delays, which do not influence any
  returned value, are dropped.
* `makeHint` / `useHint` / `highBits` are modelled from the spec, since the
  repository only calls them (see their doc comments).

JavaScript `number` values that hold integers are modelled as `Int`/`Nat`;
every arithmetic operation performed by the embedded code stays well inside
the 2^53 exact-integer range of IEEE doubles, so this is faithful.
-/

/-! ## ThreatAssessor (TECHNICAL_SPECIFICATION.md, assessSecurityRequirement) -/

inductive UserRiskProfile where
  | low
  | medium
  | high
deriving DecidableEq

inductive NetworkConditions where
  | normal
  | hostile
deriving DecidableEq

inductive QuantumThreatLevel where
  | none
  | suspected
  | confirmed
deriving DecidableEq

inductive SecurityLevel where
  | minimal
  | standard
  | high
  | quantumSafe
  | military
deriving DecidableEq

/-- ThreatContext of TECHNICAL_SPECIFICATION.md section 3.1.
`transactionValue` is a JS number (an integer amount, modelled as `Int`);
`geopoliticalRisk` is documented as a 0-10 scale and modelled as `Nat`
(validity `<= 10`; none of the theorems need the upper bound). -/
structure ThreatContext where
  transactionValue : Int
  userRiskProfile : UserRiskProfile
  networkConditions : NetworkConditions
  quantumThreatLevel : QuantumThreatLevel
  geopoliticalRisk : Nat
deriving DecidableEq

/-- The final score-to-level mapping of `assessSecurityRequirement`
(the four trailing `if riskScore >= _` returns). -/
def mapRiskScore (riskScore : Int) : SecurityLevel :=
  if riskScore ≥ 8 then SecurityLevel.military
  else if riskScore ≥ 6 then SecurityLevel.quantumSafe
  else if riskScore ≥ 4 then SecurityLevel.high
  else if riskScore ≥ 2 then SecurityLevel.standard
  else SecurityLevel.minimal

/-- `assessSecurityRequirement` of TECHNICAL_SPECIFICATION.md section 3.1,
embedded statement by statement.  The `case confirmed: return military`
early return becomes the first match arm; on the other arms the remaining
statements (geopolitical risk and the final mapping) are carried out.
`Math.floor(geopoliticalRisk / 3)` on a nonnegative integer is `Nat`
division by 3. -/
def assessSecurityRequirement (context : ThreatContext) : SecurityLevel :=
  let riskScore : Int := 0
  let riskScore := riskScore +
    (if context.transactionValue > 1000000 then 3
     else if context.transactionValue > 100000 then 2
     else if context.transactionValue > 10000 then 1
     else 0)
  let riskScore := riskScore +
    (match context.userRiskProfile with
     | UserRiskProfile.high => 3
     | UserRiskProfile.medium => 1
     | UserRiskProfile.low => 0)
  let riskScore := riskScore +
    (if context.networkConditions = NetworkConditions.hostile then 2 else 0)
  match context.quantumThreatLevel with
  | QuantumThreatLevel.confirmed => SecurityLevel.military
  | QuantumThreatLevel.suspected =>
      mapRiskScore (riskScore + 4 + (context.geopoliticalRisk / 3 : Nat))
  | QuantumThreatLevel.none =>
      mapRiskScore (riskScore + 0 + (context.geopoliticalRisk / 3 : Nat))

/-- Spec-side restatement of the claimed scoring formula (C3): the additive
risk score with all five contributions, used to compare against the
source function. -/
def claimRiskScore (context : ThreatContext) : Int :=
  (if context.transactionValue > 1000000 then 3
   else if context.transactionValue > 100000 then 2
   else if context.transactionValue > 10000 then 1
   else 0) +
  (match context.userRiskProfile with
   | UserRiskProfile.high => 3
   | UserRiskProfile.medium => 1
   | UserRiskProfile.low => 0) +
  (if context.networkConditions = NetworkConditions.hostile then 2 else 0) +
  (if context.quantumThreatLevel = QuantumThreatLevel.suspected then 4 else 0) +
  (context.geopoliticalRisk / 3 : Nat)

/-- Spec-side restatement of the claimed assessor (C3): military on a
confirmed quantum threat, otherwise the additive score mapped through
the thresholds 8/6/4/2. -/
def claimAssess (context : ThreatContext) : SecurityLevel :=
  if context.quantumThreatLevel = QuantumThreatLevel.confirmed then
    SecurityLevel.military
  else
    mapRiskScore (claimRiskScore context)

/-- Position of a security level in the total order
minimal < standard < high < quantumSafe < military. -/
def SecurityLevel.rank : SecurityLevel → Nat
  | SecurityLevel.minimal => 0
  | SecurityLevel.standard => 1
  | SecurityLevel.high => 2
  | SecurityLevel.quantumSafe => 3
  | SecurityLevel.military => 4

/-- Position of a user risk profile in the order low < medium < high. -/
def UserRiskProfile.rank : UserRiskProfile → Nat
  | UserRiskProfile.low => 0
  | UserRiskProfile.medium => 1
  | UserRiskProfile.high => 2

/-- Position of network conditions in the order normal < hostile. -/
def NetworkConditions.rank : NetworkConditions → Nat
  | NetworkConditions.normal => 0
  | NetworkConditions.hostile => 1

/-- Position of a quantum threat level in the order
none < suspected < confirmed. -/
def QuantumThreatLevel.rank : QuantumThreatLevel → Nat
  | QuantumThreatLevel.none => 0
  | QuantumThreatLevel.suspected => 1
  | QuantumThreatLevel.confirmed => 2

theorem mapRiskScore_mono {s t : Int} (h : s ≤ t) :
    (mapRiskScore s).rank ≤ (mapRiskScore t).rank := by
  unfold mapRiskScore
  split_ifs <;> simp [SecurityLevel.rank] <;> omega

/-- C3 -- `assessSecurityRequirement` returns military immediately on a
confirmed quantum threat and otherwise maps the additive risk score
(value thresholds +3/+2/+1, profile +0/+1/+3, hostile +2, suspected +4,
plus floor(geopoliticalRisk / 3)) through the thresholds
8 -> military, 6 -> quantumSafe, 4 -> high, 2 -> standard, else minimal. -/
theorem C3_assess_matches_claimed_formula (context : ThreatContext) :
    assessSecurityRequirement context = claimAssess context := by
  rcases context with ⟨v, profile, network, quantum, geo⟩
  cases quantum <;>
    simp [assessSecurityRequirement, claimAssess, claimRiskScore]

/-- C4 -- `assessSecurityRequirement` is total (it is a Lean function on
all of `ThreatContext`) and monotone non-decreasing in each input
separately, with respect to the order
minimal < standard < high < quantumSafe < military. -/
theorem C4_assess_monotone (context : ThreatContext) :
    (∀ v v' : Int, v ≤ v' →
      (assessSecurityRequirement { context with transactionValue := v }).rank ≤
      (assessSecurityRequirement { context with transactionValue := v' }).rank) ∧
    (∀ p p' : UserRiskProfile, p.rank ≤ p'.rank →
      (assessSecurityRequirement { context with userRiskProfile := p }).rank ≤
      (assessSecurityRequirement { context with userRiskProfile := p' }).rank) ∧
    (∀ n n' : NetworkConditions, n.rank ≤ n'.rank →
      (assessSecurityRequirement { context with networkConditions := n }).rank ≤
      (assessSecurityRequirement { context with networkConditions := n' }).rank) ∧
    (∀ q q' : QuantumThreatLevel, q.rank ≤ q'.rank →
      (assessSecurityRequirement { context with quantumThreatLevel := q }).rank ≤
      (assessSecurityRequirement { context with quantumThreatLevel := q' }).rank) ∧
    (∀ g g' : Nat, g ≤ g' →
      (assessSecurityRequirement { context with geopoliticalRisk := g }).rank ≤
      (assessSecurityRequirement { context with geopoliticalRisk := g' }).rank) := by
  rcases context with ⟨v, profile, network, quantum, geo⟩
  refine ⟨?_, ?_, ?_, ?_, ?_⟩
  · intro a b hab
    cases quantum <;>
      simp only [assessSecurityRequirement, SecurityLevel.rank] <;>
      first
      | rfl
      | · apply mapRiskScore_mono
          split_ifs <;> omega
  · intro p p' hp
    cases quantum <;>
      simp only [assessSecurityRequirement, SecurityLevel.rank] <;>
      first
      | rfl
      | · apply mapRiskScore_mono
          cases p <;> cases p' <;>
            simp [UserRiskProfile.rank] at hp ⊢ <;> omega
  · intro n n' hn
    cases quantum <;>
      simp only [assessSecurityRequirement, SecurityLevel.rank] <;>
      first
      | rfl
      | · apply mapRiskScore_mono
          cases n <;> cases n' <;>
            simp [NetworkConditions.rank] at hn ⊢ <;> omega
  · intro q q' hq
    cases q <;> cases q' <;> simp [QuantumThreatLevel.rank] at hq ⊢ <;>
      simp only [assessSecurityRequirement, SecurityLevel.rank] <;>
      first
      | rfl
      | omega
      | · have h := mapRiskScore_mono (s :=
            (0 + (if v > 1000000 then 3
              else if v > 100000 then 2
              else if v > 10000 then 1 else 0) +
              (match profile with
               | UserRiskProfile.high => 3
               | UserRiskProfile.medium => 1
               | UserRiskProfile.low => 0) +
              (if network = NetworkConditions.hostile then 2 else 0)) +
              0 + (geo / 3 : Nat))
            (t :=
            (0 + (if v > 1000000 then 3
              else if v > 100000 then 2
              else if v > 10000 then 1 else 0) +
              (match profile with
               | UserRiskProfile.high => 3
               | UserRiskProfile.medium => 1
               | UserRiskProfile.low => 0) +
              (if network = NetworkConditions.hostile then 2 else 0)) +
              4 + (geo / 3 : Nat)) (by omega)
          first
          | exact h
          | · have hr : ∀ l : SecurityLevel, l.rank ≤ SecurityLevel.rank SecurityLevel.military := by
                intro l; cases l <;> simp [SecurityLevel.rank]
              exact hr _
  · intro g g' hg
    cases quantum <;>
      simp only [assessSecurityRequirement, SecurityLevel.rank] <;>
      first
      | rfl
      | · apply mapRiskScore_mono
          have : (g / 3 : Nat) ≤ (g' / 3 : Nat) := Nat.div_le_div_right hg
          omega

/-- C4 witness: the monotonicity statements of `C4_assess_monotone`
applied at a concrete context and concrete ordered inputs. -/
theorem C4_assess_monotone_witness :
    ((5000 : Int) ≤ 200000) ∧
    ((assessSecurityRequirement
        { transactionValue := 5000, userRiskProfile := UserRiskProfile.medium,
          networkConditions := NetworkConditions.normal,
          quantumThreatLevel := QuantumThreatLevel.none,
          geopoliticalRisk := 4 }).rank ≤
     (assessSecurityRequirement
        { transactionValue := 200000, userRiskProfile := UserRiskProfile.medium,
          networkConditions := NetworkConditions.normal,
          quantumThreatLevel := QuantumThreatLevel.none,
          geopoliticalRisk := 4 }).rank) :=
  ⟨by decide,
   (C4_assess_monotone
      { transactionValue := 0, userRiskProfile := UserRiskProfile.medium,
        networkConditions := NetworkConditions.normal,
        quantumThreatLevel := QuantumThreatLevel.none,
        geopoliticalRisk := 4 }).1 5000 200000 (by decide)⟩

/-! ## Simulated demo engine of src/lib/ethereum-utils.ts

The demo draws every key and signature byte from `Math.random`.  The random
stream is made explicit: `rand : Nat → Fin 16` is the sequence of values
`Math.floor(Math.random() * 16)` produced by successive draws, and `start`
is the position of the next draw.  Simulated `setTimeout` delays and
`performance.now` timing fields are dropped: they do not influence any
returned key or signature material. -/

/-- The alphabet `chars = "0123456789abcdef"` of `generateRandomHex`. -/
def hexChars : List Char := "0123456789abcdef".toList

/-- `generateRandomHex(length)` of ethereum-utils.ts: `length` characters,
the i-th being `chars[Math.floor(Math.random() * chars.length)]`, i.e. the
hex digit selected by draw number `start + i` of the stream. -/
def generateRandomHex (rand : Nat → Fin 16) (start : Nat) : Nat → List Char
  | 0 => []
  | len + 1 =>
      hexChars.getD (rand start).val '0' :: generateRandomHex rand (start + 1) len

/-- One entry of the `keySpecs` table of `generateDilithiumKeys`. -/
structure KeySpec where
  publicKeySize : Nat
  privateKeySize : Nat
  securityLevel : String
deriving DecidableEq

/-- The `keySpecs` lookup `keySpecs[variant] || keySpecs.dilithium3`. -/
def keySpecs (variant : String) : KeySpec :=
  if variant = "dilithium2" then ⟨1312, 2528, "Level 1"⟩
  else if variant = "dilithium3" then ⟨1952, 4000, "Level 3"⟩
  else if variant = "dilithium5" then ⟨2592, 4864, "Level 5"⟩
  else ⟨1952, 4000, "Level 3"⟩

/-- The object returned by the key generation functions of
ethereum-utils.ts. -/
structure GeneratedKeys where
  publicKey : List Char
  privateKey : List Char
  publicKeySize : Nat
  privateKeySize : Nat
  securityLevel : String
  algorithm : String
deriving DecidableEq

/-- `generateDilithiumKeys(variant)` of ethereum-utils.ts: looks up the
size spec and fills both keys with fresh random hex characters
(`publicKey` first, then `privateKey`, consuming the stream in order).
There is no seed parameter; all key material comes from `Math.random`. -/
def generateDilithiumKeys (variant : String) (rand : Nat → Fin 16)
    (start : Nat) : GeneratedKeys :=
  let spec := keySpecs variant
  { publicKey := generateRandomHex rand start (spec.publicKeySize * 2)
    privateKey :=
      generateRandomHex rand (start + spec.publicKeySize * 2) (spec.privateKeySize * 2)
    publicKeySize := spec.publicKeySize
    privateKeySize := spec.privateKeySize
    securityLevel := spec.securityLevel
    algorithm := variant }

/-- `generateRSAKeys(keySize)` of ethereum-utils.ts. -/
def generateRSAKeys (keySize : Nat) (rand : Nat → Fin 16) (start : Nat) :
    GeneratedKeys :=
  let publicKeySize := keySize / 8
  let privateKeySize := keySize / 8 * 5
  { publicKey := generateRandomHex rand start (publicKeySize * 2)
    privateKey :=
      generateRandomHex rand (start + publicKeySize * 2) (privateKeySize * 2)
    publicKeySize := publicKeySize
    privateKeySize := privateKeySize
    securityLevel := if keySize = 2048 then "112-bit" else "128-bit"
    algorithm := "rsa" ++ toString keySize }

/-- `generateECDSAKeys()` of ethereum-utils.ts. -/
def generateECDSAKeys (rand : Nat → Fin 16) (start : Nat) : GeneratedKeys :=
  { publicKey := generateRandomHex rand start 128
    privateKey := generateRandomHex rand (start + 128) 64
    publicKeySize := 64
    privateKeySize := 32
    securityLevel := "128-bit"
    algorithm := "ecdsa" }

/-- The `signatureSizes` table of `signMessage`, with its `|| 256`
fallback. -/
def signatureSizeFor (algorithm : String) : Nat :=
  if algorithm = "dilithium3" then 3293
  else if algorithm = "rsa2048" then 256
  else if algorithm = "ecdsa" then 64
  else 256

/-- The object returned by `signMessage`. -/
structure SignedMessage where
  signature : List Char
  signatureSize : Nat
  publicKey : List Char
  algorithm : String
deriving DecidableEq

/-- `signMessage(message, algorithm)` of ethereum-utils.ts: a fresh random
hex string of the algorithm-specific signature size, plus a freshly
generated public key.  The message is never read; the signature bytes are
independent of it. -/
def signMessage (message : String) (algorithm : String) (rand : Nat → Fin 16)
    (start : Nat) : SignedMessage :=
  let signatureSize := signatureSizeFor algorithm
  let signature := generateRandomHex rand start (signatureSize * 2)
  let keys :=
    if algorithm = "dilithium3" then
      generateDilithiumKeys "dilithium3" rand (start + signatureSize * 2)
    else if algorithm = "rsa2048" then
      generateRSAKeys 2048 rand (start + signatureSize * 2)
    else
      generateECDSAKeys rand (start + signatureSize * 2)
  { signature := signature
    signatureSize := signatureSize
    publicKey := keys.publicKey
    algorithm := algorithm }

/-- `verifySignature(message, signature, publicKey, algorithm)` of
ethereum-utils.ts.  After a simulated delay the function executes
`return true` unconditionally; no argument influences the result
(source comment: for demo purposes, we return true assuming a valid
signature). -/
def verifySignature (message : String) (signature : List Char)
    (publicKey : List Char) (algorithm : String) : Bool :=
  true

/-- The object returned by `generateHybridSignature`: the `standard`
branch carries no public key, the `quantum-safe` branch returns the
`signMessage` result (whose public key is recorded here as `some _`).
The `time` field is timing-only and dropped. -/
structure HybridSignatureResult where
  signature : List Char
  signatureSize : Nat
  algorithm : String
  publicKey : Option (List Char)
deriving DecidableEq

/-- `generateHybridSignature(message, securityLevel)` of
ethereum-utils.ts.  On `"standard"`: an ECDSA `signMessage` call (which
draws 64*2 signature characters and then 64*2 + 32*2 key characters,
320 draws in total) followed by `dilithiumProof = generateRandomHex(128)`,
returning the concatenation with size 64 + 64 and algorithm
`"hybrid-standard"`.  Otherwise: a full `signMessage(message,
"dilithium3")`. -/
def generateHybridSignature (message : String) (securityLevel : String)
    (rand : Nat → Fin 16) (start : Nat) : HybridSignatureResult :=
  if securityLevel = "standard" then
    let ecdsaSig := signMessage message "ecdsa" rand start
    let dilithiumProof := generateRandomHex rand (start + 320) 128
    { signature := ecdsaSig.signature ++ dilithiumProof
      signatureSize := ecdsaSig.signatureSize + 64
      algorithm := "hybrid-standard"
      publicKey := none }
  else
    let s := signMessage message "dilithium3" rand start
    { signature := s.signature
      signatureSize := s.signatureSize
      algorithm := s.algorithm
      publicKey := some s.publicKey }

theorem generateRandomHex_length (rand : Nat → Fin 16) :
    ∀ n start, (generateRandomHex rand start n).length = n := by
  intro n
  induction n with
  | zero => intro start; rfl
  | succ k ih => intro start; simp [generateRandomHex, ih]

theorem generateRandomHex_headD (rand : Nat → Fin 16) (start k : Nat) :
    (generateRandomHex rand start (k + 1)).headD 'x' =
      hexChars.getD (rand start).val '0' := rfl

/-- C1 -- the verifier of ethereum-utils.ts applied to a tampered,
norm-violating signature: the hex string of 6586 characters `f` encodes a
`z` whose every packed bit is set (infinity norm maximal, far above
gamma1 - beta), with flipped challengeHash and hint bytes as well, yet
`verifySignature` returns `true`.  The claim (and the verification
algorithm the repository itself documents in TECHNICAL_SPECIFICATION.md,
`dilithiumVerify` step 1) requires `false` here; the runnable code returns
`true` unconditionally. -/
theorem C1_verify_accepts_tampered_signature :
    verifySignature "test message" (List.replicate 6586 'f')
      (List.replicate 3904 '0') "dilithium3" = true := rfl

/-- C2 -- round trip: for every message, algorithm (security variant) and
random stream, the signature and public key produced by `signMessage`
are accepted by `verifySignature`.  This holds because the demo verifier
accepts every input. -/
theorem C2_roundtrip_sign_verify (message : String) (algorithm : String)
    (rand : Nat → Fin 16) (start : Nat) :
    verifySignature message (signMessage message algorithm rand start).signature
      (signMessage message algorithm rand start).publicKey algorithm = true := rfl

/-- C5 counterexample -- two invocations of `generateDilithiumKeys` with
the same variant but independent random streams (all-zero digits versus
all-one digits) return different key pairs: key generation is not
reproducible across independent runs, and no seed argument exists. -/
theorem C5_counterexample_keygen_not_reproducible :
    generateDilithiumKeys "dilithium3" (fun _ => (0 : Fin 16)) 0 ≠
      generateDilithiumKeys "dilithium3" (fun _ => (1 : Fin 16)) 0 := by
  intro h
  have h2 : (generateDilithiumKeys "dilithium3" (fun _ => (0 : Fin 16)) 0).publicKey.headD 'x' =
      (generateDilithiumKeys "dilithium3" (fun _ => (1 : Fin 16)) 0).publicKey.headD 'x' := by
    rw [h]
  have e1 : (generateDilithiumKeys "dilithium3" (fun _ => (0 : Fin 16)) 0).publicKey.headD 'x' = '0' := rfl
  have e2 : (generateDilithiumKeys "dilithium3" (fun _ => (1 : Fin 16)) 0).publicKey.headD 'x' = '1' := rfl
  rw [e1, e2] at h2
  exact absurd h2 (by decide)

/-- C5 amended -- `generateDilithiumKeys` is deterministic only as a
function of the random stream it consumes: two invocations with the same
variant that read equal `Math.random` draws return identical key pairs.
(The function has no seed parameter, so independent runs are generally
different, as the counterexample shows.) -/
theorem C5_keygen_deterministic_in_rand (variant : String)
    (r1 r2 : Nat → Fin 16) (start : Nat) (h : ∀ i, r1 i = r2 i) :
    generateDilithiumKeys variant r1 start =
      generateDilithiumKeys variant r2 start := by
  have hr : r1 = r2 := funext h
  rw [hr]

/-- C5 witness: the amended determinism applied to the all-zero stream. -/
theorem C5_keygen_deterministic_in_rand_witness :
    (∀ i : Nat, (fun _ : Nat => (0 : Fin 16)) i = (fun _ : Nat => (0 : Fin 16)) i) ∧
    generateDilithiumKeys "dilithium3" (fun _ => (0 : Fin 16)) 0 =
      generateDilithiumKeys "dilithium3" (fun _ => (0 : Fin 16)) 0 :=
  ⟨fun _ => rfl,
   C5_keygen_deterministic_in_rand "dilithium3" _ _ 0 (fun _ => rfl)⟩

/-- The `standard` branch of `generateHybridSignature` puts the
`dilithiumProof` draws (stream positions start+320 .. start+447) after the
128 ECDSA signature characters. -/
theorem hybrid_standard_drop (message : String) (rand : Nat → Fin 16)
    (start : Nat) :
    (generateHybridSignature message "standard" rand start).signature.drop 128 =
      generateRandomHex rand (start + 320) 128 := by
  show ((signMessage message "ecdsa" rand start).signature ++
      generateRandomHex rand (start + 320) 128).drop 128 = _
  have hlen : (signMessage message "ecdsa" rand start).signature.length = 128 := by
    show (generateRandomHex rand start (signatureSizeFor "ecdsa" * 2)).length = 128
    rw [generateRandomHex_length]
    decide
  rw [← hlen, List.drop_left]

/-- C9 counterexample -- in the `standard` branch the quantum commitment
component (`dilithiumProof`, the last 128 signature characters) is fresh
random output: it is unchanged when the message changes (same stream) and
changes when only the random stream changes, so it is not a hash binding
the lattice public key and the message. -/
theorem C9_counterexample_commitment_is_random :
    (generateHybridSignature "message A" "standard" (fun _ => (0 : Fin 16)) 0 =
      generateHybridSignature "message B" "standard" (fun _ => (0 : Fin 16)) 0) ∧
    (generateHybridSignature "test" "standard" (fun _ => (0 : Fin 16)) 0).signature.drop 128 ≠
      (generateHybridSignature "test" "standard" (fun _ => (1 : Fin 16)) 0).signature.drop 128 := by
  constructor
  · rfl
  · rw [hybrid_standard_drop, hybrid_standard_drop]
    intro h
    have h2 : (generateRandomHex (fun _ => (0 : Fin 16)) (0 + 320) 128).headD 'x' =
        (generateRandomHex (fun _ => (1 : Fin 16)) (0 + 320) 128).headD 'x' := by
      rw [h]
    have e1 : (generateRandomHex (fun _ => (0 : Fin 16)) (0 + 320) 128).headD 'x' = '0' := rfl
    have e2 : (generateRandomHex (fun _ => (1 : Fin 16)) (0 + 320) 128).headD 'x' = '1' := rfl
    rw [e1, e2] at h2
    exact absurd h2 (by decide)

/-- C9 amended -- at level `standard` the hybrid signature is the ECDSA
signature concatenated with 128 hex characters drawn fresh from the random
stream (the `dilithiumProof` placeholder).  The result is independent of
the message, the proof component is not derived from any lattice public
key or message hash, the reported size is 64 + 64 = 128, and the variant
tag is `hybrid-standard`. -/
theorem C9_standard_hybrid_proof_is_fresh_random (message message' : String)
    (rand : Nat → Fin 16) (start : Nat) :
    generateHybridSignature message "standard" rand start =
      generateHybridSignature message' "standard" rand start ∧
    (generateHybridSignature message "standard" rand start).signature =
      (signMessage message "ecdsa" rand start).signature ++
        generateRandomHex rand (start + 320) 128 ∧
    (generateHybridSignature message "standard" rand start).signatureSize = 128 ∧
    (generateHybridSignature message "standard" rand start).algorithm =
      "hybrid-standard" :=
  ⟨rfl, rfl, rfl, rfl⟩

/-- C10 -- `verifySignature` returns `true` on every input tuple,
including signatures never produced by `signMessage` and unrelated public
keys, and (being a total function) never throws. -/
theorem C10_verify_always_true (message : String)
    (signature publicKey : List Char) (algorithm : String) :
    verifySignature message signature publicKey algorithm = true := rfl

/-! ## SignatureEngine rejection sampling loop
(TECHNICAL_SPECIFICATION.md section 2.2, dilithiumSign)

The loop is embedded exactly: per attempt the candidate response vector
`z`, hint `h` and challenge hash are produced, the two rejection checks
(infinity norm of `z` against gamma1 - beta, hint weight against omega)
are evaluated, and on rejection the attempt counter is incremented, up to
`maxAttempts = 1000`, after which the failure is surfaced to the caller.

The derivation of a candidate from the key and the attempt counter (steps
1-5: shake256, expandA, sampleGamma1, sampleInBall, the matrix products)
uses hash primitives that are external to the repository, so it is
abstracted as an oracle `cand : Nat → SignCandidate` giving the attempt
number's candidate; the rejection tests on the candidate are computed
concretely. -/

/-- The parameter record `getParams(securityLevel)` of the specification:
`{k, l, eta, gamma1, gamma2, beta, tau, omega, d}`.  Concrete values per
level are not declared in the repository, so they stay abstract. -/
structure SecurityParameters where
  k : Nat
  l : Nat
  eta : Nat
  gamma1 : Int
  gamma2 : Int
  beta : Int
  tau : Nat
  omega : Nat
  d : Nat

/-- A lattice signature `{c_tilde, z, h}` as returned by `dilithiumSign`:
32 challenge-hash bytes, the response coefficients, the hint bits. -/
structure DilithiumSignature where
  c_tilde : List Nat
  z : List Int
  h : List Bool
deriving DecidableEq

/-- `vectorInfinityNorm`: largest absolute value of a coefficient. -/
def vectorInfinityNorm (v : List Int) : Int :=
  v.foldr (fun c acc => max c.natAbs acc) 0

/-- `vectorWeight`: number of set hint bits. -/
def vectorWeight (h : List Bool) : Nat :=
  h.foldr (fun b acc => (if b then 1 else 0) + acc) 0

/-- One candidate of the rejection loop: the values reaching the two
checks of steps 6-7 of `dilithiumSign` (`z = y + c*s1`, the hint `h`, and
the challenge hash) for a given attempt counter. -/
structure SignCandidate where
  c_tilde : List Nat
  z : List Int
  h : List Bool

/-- `RejectionExhausted` of the error taxonomy: the attempt budget was
spent (the `throw` after the `while` loop of `dilithiumSign`). -/
inductive SignError where
  | rejectionExhausted
deriving DecidableEq

/-- `maxAttempts` of `dilithiumSign`. -/
def maxAttempts : Nat := 1000

/-- The `while (attempt < maxAttempts)` loop of `dilithiumSign`, with the
remaining budget `fuel = maxAttempts - attempt` as the recursion measure:
evaluate the candidate of the current attempt, retry on either rejection
condition, and return the signature together with the attempt number that
produced it. -/
def dilithiumSignLoop (params : SecurityParameters)
    (cand : Nat → SignCandidate) :
    Nat → Nat → Except SignError (DilithiumSignature × Nat)
  | 0, _ => Except.error SignError.rejectionExhausted
  | fuel + 1, attempt =>
      let c := cand attempt
      if vectorInfinityNorm c.z ≥ params.gamma1 - params.beta then
        dilithiumSignLoop params cand fuel (attempt + 1)
      else if vectorWeight c.h > params.omega then
        dilithiumSignLoop params cand fuel (attempt + 1)
      else
        Except.ok (⟨c.c_tilde, c.z, c.h⟩, attempt)

/-- `dilithiumSign`: run the rejection loop from attempt 0 with the full
`maxAttempts` budget. -/
def dilithiumSign (params : SecurityParameters)
    (cand : Nat → SignCandidate) : Except SignError (DilithiumSignature × Nat) :=
  dilithiumSignLoop params cand maxAttempts 0

/-- Attempt `attempt` is rejected: one of the two rejection-sampling
conditions of `dilithiumSign` holds for its candidate. -/
def attemptRejected (params : SecurityParameters)
    (cand : Nat → SignCandidate) (attempt : Nat) : Prop :=
  vectorInfinityNorm (cand attempt).z ≥ params.gamma1 - params.beta ∨
    vectorWeight (cand attempt).h > params.omega

instance (params : SecurityParameters) (cand : Nat → SignCandidate)
    (attempt : Nat) : Decidable (attemptRejected params cand attempt) := by
  unfold attemptRejected
  infer_instance

theorem dilithiumSignLoop_spec (params : SecurityParameters)
    (cand : Nat → SignCandidate) :
    ∀ fuel attempt,
      (dilithiumSignLoop params cand fuel attempt =
          Except.error SignError.rejectionExhausted ↔
        ∀ i, attempt ≤ i → i < attempt + fuel → attemptRejected params cand i) ∧
      (∀ sig n, dilithiumSignLoop params cand fuel attempt = Except.ok (sig, n) →
        attempt ≤ n ∧ n < attempt + fuel ∧ ¬ attemptRejected params cand n ∧
          (∀ i, attempt ≤ i → i < n → attemptRejected params cand i) ∧
          sig = ⟨(cand n).c_tilde, (cand n).z, (cand n).h⟩) := by
  intro fuel
  induction fuel with
  | zero =>
      intro attempt
      constructor
      · simp only [dilithiumSignLoop]
        constructor
        · intro _ i h1 h2; omega
        · intro _; trivial
      · intro sig n h; simp [dilithiumSignLoop] at h
  | succ f ih =>
      intro attempt
      constructor
      · simp only [dilithiumSignLoop]
        split_ifs with hnorm hweight
        · rw [(ih (attempt + 1)).1]
          constructor
          · intro hall i h1 h2
            rcases Nat.eq_or_lt_of_le h1 with heq | hlt
            · exact heq ▸ Or.inl hnorm
            · exact hall i hlt (by omega)
          · intro hall i h1 h2
            exact hall i (by omega) (by omega)
        · rw [(ih (attempt + 1)).1]
          constructor
          · intro hall i h1 h2
            rcases Nat.eq_or_lt_of_le h1 with heq | hlt
            · exact heq ▸ Or.inr hweight
            · exact hall i hlt (by omega)
          · intro hall i h1 h2
            exact hall i (by omega) (by omega)
        · constructor
          · intro h; exact absurd h (by simp)
          · intro hall
            exact absurd (hall attempt (le_refl _) (by omega))
              (by simp [attemptRejected]; constructor <;> omega)
      · intro sig n
        simp only [dilithiumSignLoop]
        split_ifs with hnorm hweight
        · intro h
          have := (ih (attempt + 1)).2 sig n h
          refine ⟨by omega, by omega, this.2.2.1, ?_, this.2.2.2.2⟩
          intro i h1 h2
          rcases Nat.eq_or_lt_of_le h1 with heq | hlt
          · exact heq ▸ Or.inl hnorm
          · exact this.2.2.2.1 i hlt h2
        · intro h
          have := (ih (attempt + 1)).2 sig n h
          refine ⟨by omega, by omega, this.2.2.1, ?_, this.2.2.2.2⟩
          intro i h1 h2
          rcases Nat.eq_or_lt_of_le h1 with heq | hlt
          · exact heq ▸ Or.inr hweight
          · exact this.2.2.2.1 i hlt h2
        · intro h
          simp only [Except.ok.injEq, Prod.mk.injEq] at h
          obtain ⟨hsig, hn⟩ := h
          subst hn
          refine ⟨le_refl _, by omega, ?_, ?_, hsig.symm⟩
          · simp [attemptRejected]
            constructor <;> omega
          · intro i h1 h2; omega

/-- C7 -- every `dilithiumSign` call terminates within `maxAttempts = 1000`
attempts: a produced signature comes from an attempt number below 1000,
and the budget being exhausted is a terminal `RejectionExhausted` result
surfaced to the caller, reached exactly when all 1000 attempts fail a
rejection check; no call loops past `maxAttempts`. -/
theorem C7_sign_bounded_attempts (params : SecurityParameters)
    (cand : Nat → SignCandidate) :
    (∀ sig n, dilithiumSign params cand = Except.ok (sig, n) →
      n < maxAttempts) ∧
    (dilithiumSign params cand = Except.error SignError.rejectionExhausted ↔
      ∀ i, i < maxAttempts → attemptRejected params cand i) := by
  have h := dilithiumSignLoop_spec params cand maxAttempts 0
  constructor
  · intro sig n hok
    have := (h.2 sig n) hok
    omega
  · unfold dilithiumSign
    rw [h.1]
    constructor
    · intro hall i hi
      exact hall i (Nat.zero_le _) (by omega)
    · intro hall i _ hi
      exact hall i (by omega)

set_option maxRecDepth 20000 in
/-- C7 witness: a candidate oracle whose first attempt passes both checks
is accepted at attempt 0, below the bound. -/
theorem C7_sign_bounded_attempts_witness :
    (dilithiumSign ⟨4, 4, 2, 524288, 261888, 196, 49, 55, 13⟩
        (fun _ => ⟨List.replicate 32 0, List.replicate 256 0, List.replicate 256 false⟩) =
      Except.ok
        (⟨List.replicate 32 0, List.replicate 256 0, List.replicate 256 false⟩, 0)) ∧
    0 < maxAttempts :=
  ⟨rfl,
   (C7_sign_bounded_attempts ⟨4, 4, 2, 524288, 261888, 196, 49, 55, 13⟩
      (fun _ => ⟨List.replicate 32 0, List.replicate 256 0, List.replicate 256 false⟩)).1
     ⟨List.replicate 32 0, List.replicate 256 0, List.replicate 256 false⟩ 0 rfl⟩

/-! ## Hint primitives (LatticeMath)

`makeHint`, `useHint` and `highBits` are called by `dilithiumSign` and
`dilithiumVerify` in TECHNICAL_SPECIFICATION.md but are nowhere defined in
the repository. -/

/-- The modulus `DILITHIUM_Q` used throughout the source,
q = 8380417 = 2^23 - 2^13 + 1. -/
def DILITHIUM_Q : Nat := 8380417

/-- Modelled from the spec: the decomposition base `alpha = 2 * gamma2`.
The spec fixes no gamma2 value (SecurityParameters, section 3); the
repository targets the dilithium3 parameter set throughout and declares
NIST FIPS 204 compliance (TECHNICAL_SPECIFICATION.md section 7.1), whose
ML-DSA-65 value is gamma2 = (q - 1) / 32 = 261888, so alpha = 523776
(and (q - 1) / alpha = 16 decomposition buckets). -/
def hintAlpha : Int := 523776

/-- Modelled from the spec: coefficient decomposition into high and low
bits (`highBits(w, gamma2)` of sections 4.1 and 4.3 of the spec, the
`Decompose` routine of FIPS 204, with which the repository declares
compliance): reduce mod q, take the centered residue mod alpha as the low
part (`(-alpha/2, alpha/2]`), with the wrap-around case `r - r0 = q - 1`
folded into bucket 0. -/
def decompose (r : Int) : Int × Int :=
  let rp := r % (DILITHIUM_Q : Int)
  let t := rp % hintAlpha
  let r0 := if t > hintAlpha / 2 then t - hintAlpha else t
  if rp - r0 = (DILITHIUM_Q : Int) - 1 then (0, r0 - 1)
  else ((rp - r0) / hintAlpha, r0)

/-- Modelled from the spec: the high part of a coefficient. -/
def highBits (r : Int) : Int := (decompose r).1

/-- Modelled from the spec: `makeHint(z, r, gamma2) -> bit` (section 4.1):
the hint records whether adding `z` changes the high bits of `r`. -/
def makeHint (z r : Int) : Bool := decide (highBits r ≠ highBits (r + z))

/-- Modelled from the spec: `useHint(hint, r, gamma2) -> highBits`
(section 4.1): recover the high bits of the exact value from the
approximation `r`, moving one bucket up or down (mod 16 buckets) as
directed by the hint and the sign of the low part. -/
def useHint (h : Bool) (r : Int) : Int :=
  let p := decompose r
  if h then (if p.2 > 0 then (p.1 + 1) % 16 else (p.1 - 1) % 16) else p.1

/-- C6 counterexample -- the claimed identity
`useHint(makeHint(z, r), r + z) == highBits(r + z)` fails at r = 261888,
z = 1 (both within bounds: |z| <= gamma2): the hint bit is set, so
`useHint` shifts the bucket of its argument, while `highBits(r + z)`
is the unshifted bucket.  Whenever the hint is 1 the claimed equation
contradicts itself; the verifier must apply `useHint` to its
approximation `r`, not to the exact value `r + z`. -/
theorem C6_counterexample_useHint_on_r_plus_z :
    makeHint 1 261888 = true ∧
    useHint (makeHint 1 261888) (261888 + 1) = 0 ∧
    highBits (261888 + 1) = 1 ∧
    useHint (makeHint 1 261888) (261888 + 1) ≠ highBits (261888 + 1) := by
  refine ⟨by decide, by decide, by decide, by decide⟩

set_option maxHeartbeats 2000000 in
/-- C6 amended -- the hint identity with `useHint` applied to the
approximation `r` (the value the verifier actually has): for every
coefficient `r` in `[0, q)` and every `z` with `|z| <= gamma2 = 261888`,
`useHint (makeHint z r) r = highBits (r + z)`. -/
theorem C6_useHint_makeHint_highBits (r z : Int)
    (hr0 : 0 ≤ r) (hr1 : r < 8380417)
    (hz0 : -261888 ≤ z) (hz1 : z ≤ 261888) :
    useHint (makeHint z r) r = highBits (r + z) := by
  by_cases hmh : highBits r = highBits (r + z)
  · have hb : makeHint z r = false := by simp [makeHint, hmh]
    rw [hb]
    simpa [useHint, highBits] using hmh
  · have hb : makeHint z r = true := by simp [makeHint, hmh]
    rw [hb]
    simp only [useHint, highBits, decompose, DILITHIUM_Q, hintAlpha,
      Nat.cast_ofNat] at hmh ⊢
    have hrm : r % (8380417 : Int) = r := by omega
    have hX : (r + z) % (8380417 : Int) = r + z ∨
        (r + z) % (8380417 : Int) = r + z + 8380417 ∨
        (r + z) % (8380417 : Int) = r + z - 8380417 := by omega
    rw [hrm] at hmh ⊢
    rcases hX with hX | hX | hX <;> rw [hX] at hmh ⊢ <;>
      split_ifs at hmh ⊢ <;> omega

/-! ## Compressor (TECHNICAL_SPECIFICATION.md section 4.1)

`compressPolynomial` packs bit `bit` of each quantized coefficient `i` at
`bitOffset = i * bits + bit` of a `Uint8Array` that both functions address
exclusively through `byteIndex = bitOffset / 8`, `bitIndex = bitOffset % 8`;
the byte array is therefore embedded as the flat sequence of bits indexed
by `bitOffset` (out-of-range reads of the array give an unset bit). -/

/-- Coefficient quantization of `compressPolynomial`:
`Math.round((poly[i] * range) / DILITHIUM_Q) % range`.  For nonnegative
integers, `Math.round(a / b)` is `(2a + b) / (2b)` in integer division;
the numerators stay far below 2^53 so the JS float quotient is
exact enough, and no exact tie exists because q is odd. -/
def quantizeCoeff (range x : Nat) : Nat :=
  (2 * (x * range) + DILITHIUM_Q) / (2 * DILITHIUM_Q) % range

/-- Coefficient dequantization of `decompressPolynomial`:
`Math.round((value * DILITHIUM_Q) / range)`. -/
def dequantizeCoeff (range v : Nat) : Nat :=
  (2 * (v * DILITHIUM_Q) + range) / (2 * range)

/-- The packing loop of `compressPolynomial`: the low `bits` bits of a
quantized coefficient, least significant first
(`(quantized >> bit) & 1` for `bit = 0 .. bits - 1`). -/
def coeffBits (v : Nat) : Nat → List Bool
  | 0 => []
  | k + 1 => v.testBit 0 :: coeffBits (v / 2) k

/-- `compressPolynomial(poly, bits)`: quantize each coefficient in order
and append its `bits` packed bits. -/
def compressPolynomial : List Nat → Nat → List Bool
  | [], _ => []
  | c :: rest, bits =>
      coeffBits (quantizeCoeff (2 ^ bits) c) bits ++ compressPolynomial rest bits

/-- The extraction loop of `decompressPolynomial`: read the stream bits at
offsets `base .. base + nbits - 1`, OR-ing `1 << bit` for each set bit. -/
def readCoeff (stream : List Bool) (base : Nat) : Nat → Nat
  | 0 => 0
  | k + 1 =>
      (if stream.getD base false then 1 else 0) + 2 * readCoeff stream (base + 1) k

/-- `decompressPolynomial(compressed, bits)`: 256 coefficients, the i-th
extracted from bit offset `i * bits` and dequantized. -/
def decompressPolynomial (stream : List Bool) (bits : Nat) : List Nat :=
  (List.range 256).map fun i =>
    dequantizeCoeff (2 ^ bits) (readCoeff stream (i * bits) bits)

/-- Distance of two coefficients as residues mod q. -/
def modDist (a b : Nat) : Nat :=
  min (max a b - min a b) (DILITHIUM_Q - (max a b - min a b))

theorem coeffBits_length (v : Nat) : ∀ k, (coeffBits v k).length = k := by
  intro k
  induction k generalizing v with
  | zero => rfl
  | succ n ih => simp [coeffBits, ih]

theorem readCoeff_cons (b : Bool) (t : List Bool) :
    ∀ k base, readCoeff (b :: t) (base + 1) k = readCoeff t base k := by
  intro k
  induction k with
  | zero => intro base; rfl
  | succ n ih =>
      intro base
      simp only [readCoeff]
      rw [show (b :: t).getD (base + 1) false = t.getD base false from by
        simp [List.getD]]
      rw [ih (base + 1)]

theorem readCoeff_append (l t : List Bool) :
    ∀ k base, readCoeff (l ++ t) (l.length + base) k = readCoeff t base k := by
  induction l with
  | nil => intro k base; simp
  | cons b rest ih =>
      intro k base
      show readCoeff (b :: (rest ++ t)) (rest.length + 1 + base) k = _
      rw [show rest.length + 1 + base = rest.length + base + 1 from by omega]
      rw [readCoeff_cons]
      exact ih k base

theorem readCoeff_coeffBits :
    ∀ (k v : Nat) (t : List Bool), readCoeff (coeffBits v k ++ t) 0 k = v % 2 ^ k := by
  intro k
  induction k with
  | zero => intro v t; simp [readCoeff, coeffBits, Nat.mod_one]
  | succ n ih =>
      intro v t
      show readCoeff (v.testBit 0 :: (coeffBits (v / 2) n ++ t)) 0 (n + 1) = v % 2 ^ (n + 1)
      simp only [readCoeff]
      rw [readCoeff_cons, ih (v / 2) t]
      rw [show (v.testBit 0 :: (coeffBits (v / 2) n ++ t)).getD 0 false = v.testBit 0 from rfl]
      rw [show (if v.testBit 0 then (1 : Nat) else 0) = v % 2 from by
        rcases Nat.mod_two_eq_zero_or_one v with h | h <;> simp [Nat.testBit_zero, h]]
      rw [pow_succ', Nat.mod_mul]

theorem readCoeff_compress (bits : Nat) :
    ∀ (l : List Nat) (i : Nat), i < l.length →
      readCoeff (compressPolynomial l bits) (i * bits) bits =
        quantizeCoeff (2 ^ bits) (l.getD i 0) % 2 ^ bits := by
  intro l
  induction l with
  | nil => intro i hi; simp at hi
  | cons c rest ih =>
      intro i hi
      cases i with
      | zero =>
          show readCoeff
            (coeffBits (quantizeCoeff (2 ^ bits) c) bits ++ compressPolynomial rest bits)
            (0 * bits) bits = _
          rw [Nat.zero_mul]
          exact readCoeff_coeffBits bits (quantizeCoeff (2 ^ bits) c) _
      | succ j =>
          show readCoeff
            (coeffBits (quantizeCoeff (2 ^ bits) c) bits ++ compressPolynomial rest bits)
            ((j + 1) * bits) bits = _
          rw [show (j + 1) * bits =
              (coeffBits (quantizeCoeff (2 ^ bits) c) bits).length + j * bits from by
            rw [coeffBits_length]; ring]
          rw [readCoeff_append]
          rw [show ((c :: rest).getD (j + 1) 0) = rest.getD j 0 from by simp [List.getD]]
          exact ih j (by simpa using hi)

theorem decompress_compress_getD (poly : List Nat) (bits i : Nat)
    (hlen : poly.length = 256) (hi : i < 256) :
    (decompressPolynomial (compressPolynomial poly bits) bits).getD i 0 =
      dequantizeCoeff (2 ^ bits) (quantizeCoeff (2 ^ bits) (poly.getD i 0)) := by
  unfold decompressPolynomial
  have hl : i < ((List.range 256).map fun j =>
      dequantizeCoeff (2 ^ bits)
        (readCoeff (compressPolynomial poly bits) (j * bits) bits)).length := by
    simp [hi]
  rw [List.getD_eq_getElem _ _ hl]
  simp only [List.getElem_map, List.getElem_range]
  rw [readCoeff_compress bits poly i (by omega)]
  congr 1
  exact Nat.mod_eq_of_lt (Nat.mod_lt _ (Nat.pos_pow_of_pos bits (by omega)))

/-- Quantization error bound for one coefficient: for `x` in `[0, q)` the
round trip lands within `(q + range) / (2 * range)` of `x` as a residue
mod q (the two roundings contribute `q / (2 * range)` and `1/2`). -/
theorem quant_bound (R x : Nat) (hR : 1 ≤ R) (hx : x < DILITHIUM_Q) :
    modDist (dequantizeCoeff R (quantizeCoeff R x)) x ≤ (DILITHIUM_Q + R) / (2 * R) := by
  have hxq : x < 8380417 := hx
  simp only [modDist, quantizeCoeff, dequantizeCoeff, DILITHIUM_Q] at *
  set p := x * R with hp
  set vq := (2 * p + 8380417) / (2 * 8380417) with hvq
  set v := vq % R with hv
  set y := (2 * (v * 8380417) + R) / (2 * R) with hy
  set B := (8380417 + R) / (2 * R) with hB
  have hvdm : 2 * 8380417 * vq + (2 * p + 8380417) % (2 * 8380417) = 2 * p + 8380417 :=
    Nat.div_add_mod _ _
  have hvmlt : (2 * p + 8380417) % (2 * 8380417) < 2 * 8380417 :=
    Nat.mod_lt _ (by norm_num)
  have hydm : 2 * R * y + (2 * (v * 8380417) + R) % (2 * R) = 2 * (v * 8380417) + R :=
    Nat.div_add_mod _ _
  have hymlt : (2 * (v * 8380417) + R) % (2 * R) < 2 * R := Nat.mod_lt _ (by omega)
  have hBdm : 2 * R * B + (8380417 + R) % (2 * R) = 8380417 + R := Nat.div_add_mod _ _
  have hBmlt : (8380417 + R) % (2 * R) < 2 * R := Nat.mod_lt _ (by omega)
  have hpmax : p ≤ 8380416 * R := by
    rw [hp]; exact Nat.mul_le_mul_right R (by omega)
  have hvqR : vq ≤ R := by
    rcases Nat.lt_or_ge vq (R + 1) with h | h
    · omega
    · exfalso
      have h1 : 2 * 8380417 * (R + 1) ≤ 2 * 8380417 * vq := Nat.mul_le_mul_left _ h
      omega
  rcases Nat.lt_or_ge vq R with hcase | hcase
  · have hveq : v = vq := by rw [hv]; exact Nat.mod_eq_of_lt hcase
    have hup : y ≤ x + B := by
      by_contra hcon
      push_neg at hcon
      have h2 : R * (x + B + 1) ≤ R * y := Nat.mul_le_mul_left R (by omega)
      have h3 : R * (x + B + 1) = p + R * B + R := by rw [hp]; ring
      have h4 : 2 * R * y = 2 * (R * y) := by ring
      have h5 : 2 * R * B = 2 * (R * B) := by ring
      omega
    have hlo : x ≤ y + B := by
      by_contra hcon
      push_neg at hcon
      have h2 : R * (y + B + 1) ≤ R * x := Nat.mul_le_mul_left R (by omega)
      have h3 : R * (y + B + 1) = R * y + R * B + R := by ring
      have h4 : R * x = p := by rw [hp]; ring
      have h5 : 2 * R * y = 2 * (R * y) := by ring
      have h6 : 2 * R * B = 2 * (R * B) := by ring
      omega
    have hdiff : max y x - min y x ≤ B := by
      rcases le_total y x with h | h
      · rw [max_eq_right h, min_eq_left h]; omega
      · rw [max_eq_left h, min_eq_right h]; omega
    exact le_trans (min_le_left _ _) hdiff
  · have hvqeq : vq = R := by omega
    have hveq : v = 0 := by rw [hv, hvqeq]; exact Nat.mod_self R
    have hyeq : y = 0 := by
      rw [hy, hveq]
      rw [show 2 * (0 * 8380417) + R = R from by ring]
      exact Nat.div_eq_of_lt (by omega)
    have hdB : 8380417 - x ≤ B := by
      by_contra hcon
      push_neg at hcon
      have h2 : R * (B + 1) ≤ R * (8380417 - x) := Nat.mul_le_mul_left R (by omega)
      have h3 : R * (B + 1) = R * B + R := by ring
      have hsplit : p + R * (8380417 - x) = 8380417 * R := by
        rw [hp, ← Nat.mul_comm (8380417 - x) R, ← Nat.add_mul]
        rw [show x + (8380417 - x) = 8380417 from by omega]
      have h5 : 2 * R * B = 2 * (R * B) := by ring
      omega
    rw [hyeq]
    have hrw : max 0 x - min 0 x = x := by
      rw [max_eq_right (Nat.zero_le x), min_eq_left (Nat.zero_le x)]
      omega
    rw [hrw]
    exact le_trans (min_le_right _ _) (by omega)

set_option maxRecDepth 40000 in
/-- C8 counterexample -- at bits = 1 the coefficient 6285314 quantizes to
`round(6285314 * 2 / q) % 2 = 2 % 2 = 0` and decompresses to 0: the
plain difference is 6285314, far above the claimed bound
q / 2^(bits+1) = q / 4 (stated multiplied out: 2^(bits+1) * error > q).
The quantized value 2^bits of coefficients near q wraps to 0 under
`% range`, so the claimed plain-difference bound fails. -/
theorem C8_counterexample_wraparound :
    (decompressPolynomial (compressPolynomial (List.replicate 256 6285314) 1) 1).getD 0 0 = 0 ∧
    (List.replicate 256 6285314).getD 0 0 = 6285314 ∧
    DILITHIUM_Q < 2 ^ (1 + 1) * (6285314 - 0) := by
  refine ⟨?_, rfl, by decide⟩
  rw [decompress_compress_getD (List.replicate 256 6285314) 1 0
    (List.length_replicate 256 6285314) (by omega)]
  decide

/-- C8 amended -- the round-trip error bound holds for the distance mod q
(coefficients are residues in Z_q) and with the bound enlarged by the
second rounding to `round(q / 2^(bits+1)) = (q + 2^bits) / 2^(bits+1)`:
for every polynomial of 256 coefficients in `[0, q)`, every width `bits`,
and every coefficient index, decompressing the compression lands within
`(q + 2^bits) / 2^(bits+1)` of the original mod q.  (The plain-difference
bound `q / 2^(bits+1)` of the claim fails both at the wrap-around, see the
counterexample, and for widths where the second rounding exceeds the
fractional slack of `q / 2^(bits+1)`, e.g. error 64 > q / 2^17 = 63.9 at
bits = 16.) -/
theorem C8_decompress_compress_error_bound (poly : List Nat) (bits i : Nat)
    (hlen : poly.length = 256) (hall : ∀ c ∈ poly, c < DILITHIUM_Q)
    (hi : i < 256) :
    modDist ((decompressPolynomial (compressPolynomial poly bits) bits).getD i 0)
        (poly.getD i 0) ≤ (DILITHIUM_Q + 2 ^ bits) / 2 ^ (bits + 1) := by
  rw [decompress_compress_getD poly bits i hlen hi]
  have hx : poly.getD i 0 < DILITHIUM_Q := by
    rw [List.getD_eq_getElem poly 0 (by omega)]
    exact hall _ (List.getElem_mem _)
  have h := quant_bound (2 ^ bits) (poly.getD i 0)
    (Nat.pos_pow_of_pos bits (by omega)) hx
  rw [show (2 : Nat) ^ (bits + 1) = 2 * 2 ^ bits from by rw [pow_succ']]
  exact h

set_option maxRecDepth 40000 in
/-- C8 witness: the amended bound applied to the constant polynomial 1000
at width 8, coefficient 0. -/
theorem C8_decompress_compress_error_bound_witness :
    (List.replicate 256 1000).length = 256 ∧
    (∀ c ∈ List.replicate 256 1000, c < DILITHIUM_Q) ∧
    (0 : Nat) < 256 ∧
    modDist ((decompressPolynomial (compressPolynomial (List.replicate 256 1000) 8) 8).getD 0 0)
        ((List.replicate 256 1000).getD 0 0) ≤ (DILITHIUM_Q + 2 ^ 8) / 2 ^ (8 + 1) :=
  ⟨List.length_replicate 256 1000,
   fun c hc => by rw [List.eq_of_mem_replicate hc]; decide,
   by decide,
   C8_decompress_compress_error_bound (List.replicate 256 1000) 8 0
     (List.length_replicate 256 1000)
     (fun c hc => by rw [List.eq_of_mem_replicate hc]; decide) (by decide)⟩

/-- C6 witness: the amended hint identity applied at r = 261888, z = 1
(a set hint bit). -/
theorem C6_useHint_makeHint_highBits_witness :
    ((0 : Int) ≤ 261888) ∧ ((261888 : Int) < 8380417) ∧
    ((-261888 : Int) ≤ 1) ∧ ((1 : Int) ≤ 261888) ∧
    useHint (makeHint 1 261888) 261888 = highBits (261888 + 1) :=
  ⟨by decide, by decide, by decide, by decide,
   C6_useHint_makeHint_highBits 261888 1 (by decide) (by decide) (by decide) (by decide)⟩
